import Mathlib

/-!
Shallow embedding of the `securetoken` package (AEAD `Tokener` version):
byte buffers are `List Nat` with values reduced mod 256 exactly where the
source does, the clock reading is an `Int` count of nanoseconds since the
Unix epoch (Go `int64`), the AEAD cipher, the clock and the random source
are the external collaborators the package consumes and are threaded as
explicit parameters.
-/

namespace SecureToken

/-- Go `binary.LittleEndian.PutUint64`: the 8 little-endian bytes of `n mod 2^64`. -/
def uint64LE (n : Nat) : List Nat :=
  [n % 256, n / 256 % 256, n / 65536 % 256, n / 16777216 % 256,
   n / 4294967296 % 256, n / 1099511627776 % 256,
   n / 281474976710656 % 256, n / 72057594037927936 % 256]

/-- Go `binary.LittleEndian.Uint64(buf[:8])`: read the first 8 bytes little-endian
(each byte is a Go `uint8`, hence reduced mod 256). Fewer than 8 bytes would
panic in Go; the model returns 0 there and theorems keep the length bound. -/
def le64ToNat : List Nat → Nat
  | b0 :: b1 :: b2 :: b3 :: b4 :: b5 :: b6 :: b7 :: _ =>
    b0 % 256 + b1 % 256 * 256 + b2 % 256 * 65536 + b3 % 256 * 16777216 +
    b4 % 256 * 4294967296 + b5 % 256 * 1099511627776 +
    b6 % 256 * 281474976710656 + b7 % 256 * 72057594037927936
  | _ => 0

/-- Go `int64(u)` for a `uint64` value: two's-complement reinterpretation. -/
def toInt64 (u : Nat) : Int :=
  if u % 18446744073709551616 < 9223372036854775808 then
    ((u % 18446744073709551616 : Nat) : Int)
  else
    ((u % 18446744073709551616 : Nat) : Int) - 18446744073709551616

/-- Model of `getTimestamp`: `int64(binary.LittleEndian.Uint64(buf[:8]))`. -/
def getTimestamp (buf : List Nat) : Int :=
  toInt64 (le64ToNat buf)

/-- Model of `putTimestamp`: `binary.LittleEndian.PutUint64(dst, uint64(timeNow().UnixNano()))`,
with the clock reading `now` passed explicitly. -/
def putTimestamp (now : Int) : List Nat :=
  uint64LE (now % 18446744073709551616).toNat

/-! ### base64.URLEncoding (padded, URL-safe alphabet), as Go encodes/decodes -/

/-- Character (byte) of the URL-safe base64 alphabet at index `i` (total on
`Nat`; only `i < 64` is ever used). -/
def b64char (i : Nat) : Nat :=
  if i < 26 then 65 + i
  else if i < 52 then 71 + i
  else if i < 62 then i - 4
  else if i = 62 then 45
  else 95

/-- Inverse alphabet lookup: `some` index for alphabet bytes, `none` otherwise
(`=` is not in the alphabet). -/
def b64index (c : Nat) : Option Nat :=
  if 65 ≤ c ∧ c ≤ 90 then some (c - 65)
  else if 97 ≤ c ∧ c ≤ 122 then some (c - 71)
  else if 48 ≤ c ∧ c ≤ 57 then some (c + 4)
  else if c = 45 then some 62
  else if c = 95 then some 63
  else none

/-- Go `base64.URLEncoding.Encode`: groups of 3 bytes to 4 alphabet bytes, with
trailing groups of 1 or 2 bytes padded with `'='` (byte 61). -/
def b64encode : List Nat → List Nat
  | [] => []
  | [b0] =>
    [b64char (b0 % 256 / 4), b64char (b0 % 256 % 4 * 16), 61, 61]
  | [b0, b1] =>
    [b64char (b0 % 256 / 4), b64char (b0 % 256 % 4 * 16 + b1 % 256 / 16),
     b64char (b1 % 256 % 16 * 4), 61]
  | b0 :: b1 :: b2 :: rest =>
    b64char (b0 % 256 / 4) :: b64char (b0 % 256 % 4 * 16 + b1 % 256 / 16) ::
    b64char (b1 % 256 % 16 * 4 + b2 % 256 / 64) :: b64char (b2 % 256 % 64) ::
    b64encode rest

/-- Decode the newline-filtered input quantum by quantum, as Go's strict-quanta
loop: every group of 4 is alphabet bytes, except that the final group may end
in `"=="` (2 data bytes dropped to 1) or `"="` (3 data bytes dropped to 2);
padding anywhere else, a non-alphabet byte, or a trailing partial group is a
`CorruptInputError`. Unused trailing bits are discarded (Go's default,
non-strict, behaviour). -/
def b64decodeQuanta : List Nat → Option (List Nat)
  | [] => some []
  | c0 :: c1 :: c2 :: c3 :: rest =>
    match b64index c0, b64index c1 with
    | some i0, some i1 =>
      if c2 = 61 then
        if c3 = 61 ∧ rest = [] then some [i0 * 4 + i1 / 16] else none
      else
        match b64index c2 with
        | some i2 =>
          if c3 = 61 then
            if rest = [] then some [i0 * 4 + i1 / 16, i1 % 16 * 16 + i2 / 4]
            else none
          else
            match b64index c3 with
            | some i3 =>
              match b64decodeQuanta rest with
              | some tail =>
                some ((i0 * 4 + i1 / 16) :: (i1 % 16 * 16 + i2 / 4) ::
                      (i2 % 4 * 64 + i3) :: tail)
              | none => none
            | none => none
        | none => none
    | _, _ => none
  | _ => none

/-- Go `base64.URLEncoding.Decode`: new line bytes (`\r`, `\n`) are ignored, then
the input is consumed in 4-byte quanta. -/
def b64decode (src : List Nat) : Option (List Nat) :=
  b64decodeQuanta (src.filter fun c => c ≠ 10 ∧ c ≠ 13)

/-- Go `base64.Encoding.EncodedLen` for a padded encoding. -/
def b64EncodedLen (n : Nat) : Nat :=
  (n + 2) / 3 * 4

/-! ### The Tokener -/

/-- The source's `var sealVersion uint8 = 1`. -/
def sealVersion : Nat := 1

/-- The `cipher.AEAD` collaborator: nonce size, tag overhead, seal
(`Seal(nil, nonce, plaintext, nil)` as pure output bytes) and open
(`Open(nil, nonce, ciphertext, nil)`, `none` on authentication failure). -/
structure AEAD where
  nonceSize : Nat
  overhead : Nat
  aeadSeal : List Nat → List Nat → List Nat
  aeadOpen : List Nat → List Nat → Option (List Nat)

/-- The errors `Unseal`/`Seal` can surface. `errTokenInvalid` and
`errTokenExpired` are the package's own sentinel errors; a base64
`CorruptInputError`, the AEAD's authentication-failure error and a failure of
the random source are distinct error values propagated from collaborators. -/
inductive TokenError
  | tokenInvalid
  | tokenExpired
  | base64Error
  | authError
  | randomError
deriving DecidableEq, Repr

/-- A `Tokener` holds the AEAD (already keyed) and the ttl in nanoseconds. -/
structure Tokener where
  aead : AEAD
  ttl : Int

/-- Model of `sealedLength`: `1 + NonceSize + len(plaintext) + Overhead`, optionally
base64-expanded. -/
def Tokener.sealedLength (t : Tokener) (plaintext : List Nat) (encoded : Bool) : Nat :=
  let length := 1 + t.aead.nonceSize + plaintext.length + t.aead.overhead
  if encoded then b64EncodedLen length else length

/-- The nonce `appendNonce` writes: timestamp bytes in `nonce[:8]`, the random
source's bytes in `nonce[8:]`. -/
def mkNonce (now : Int) (r : List Nat) : List Nat :=
  putTimestamp now ++ r

/-- Model of `checkTTL`: `timeNow().Add(-t.ttl).UnixNano() > ts` fails with
`errTokenExpired`. -/
def Tokener.checkTTL (t : Tokener) (now ts : Int) : Option TokenError :=
  if now - t.ttl > ts then some .tokenExpired else none

/-- Model of `Seal`: version byte, then the nonce (timestamp ‖ random bytes), then the
AEAD output, all base64url-encoded. `rand` is the random source's answer for
the `NonceSize - 8` suffix bytes: `none` models `io.ReadFull(rand.Reader, ·)`
failing, whose error `Seal` returns. -/
def Tokener.Seal (t : Tokener) (now : Int) (rand : Option (List Nat))
    (plaintext : List Nat) : Except TokenError (List Nat) :=
  match rand with
  | none => .error .randomError
  | some r =>
    let nonce := mkNonce now r
    let tok := sealVersion :: (nonce ++ t.aead.aeadSeal nonce plaintext)
    .ok (b64encode tok)

/-- Model of `Unseal`: base64-decode (failure propagates the decoder's error), check
the minimum sealed length, check the version byte, split nonce from
ciphertext, check the ttl against the nonce's timestamp, and only then
AEAD-open. -/
def Tokener.Unseal (t : Tokener) (now : Int) (sealed : List Nat) :
    Except TokenError (List Nat) :=
  match b64decode sealed with
  | none => .error .base64Error
  | some decoded =>
    if decoded.length < t.sealedLength [] false then .error .tokenInvalid
    else
      match decoded with
      | [] => .error .tokenInvalid
      | ver :: nc =>
        if ver ≠ 1 then .error .tokenInvalid
        else
          let nonce := nc.take t.aead.nonceSize
          let ciphertext := nc.drop t.aead.nonceSize
          let ts := getTimestamp nonce
          match t.checkTTL now ts with
          | some e => .error e
          | none =>
            match t.aead.aeadOpen nonce ciphertext with
            | none => .error .authError
            | some p => .ok p

/-! ### A concrete AEAD instance for evaluating the model

The package treats the cipher as a keyed black box satisfying the
`cipher.AEAD` contract; this instance (a transparent cipher with a 16-byte
checksum tag over nonce and plaintext) satisfies the same contract shape and
lets closed statements about the `Tokener` control flow be evaluated. -/

/-- A 16-byte tag determined by nonce and plaintext. -/
def toyTag (nonce p : List Nat) : List Nat :=
  (List.range 16).map fun i =>
    (i + 7 * nonce.sum + 11 * p.sum + 13 * p.length) % 256

/-- A concrete AEAD with GCM's sizes (12-byte nonce, 16-byte tag). -/
def toyAEAD : AEAD where
  nonceSize := 12
  overhead := 16
  aeadSeal := fun n p => p ++ toyTag n p
  aeadOpen := fun n c =>
    if 16 ≤ c.length then
      let p := c.take (c.length - 16)
      if c.drop (c.length - 16) = toyTag n p then some p else none
    else none

/-- A concrete Tokener over `toyAEAD` with a 60-second ttl (in nanoseconds),
mirroring the package tests' `ttl = 1 * time.Minute`. -/
def toyTokener : Tokener :=
  { aead := toyAEAD, ttl := 60000000000 }

end SecureToken

namespace SecureToken

/-! ### Lemmas about the base64 model -/

theorem b64index_b64char_fin : ∀ i : Fin 64, b64index (b64char i.val) = some i.val := by
  decide

theorem b64index_b64char (i : Nat) (h : i < 64) : b64index (b64char i) = some i :=
  b64index_b64char_fin ⟨i, h⟩

theorem b64char_props (i : Nat) :
    b64char i ≠ 61 ∧ b64char i ≠ 10 ∧ b64char i ≠ 13 := by
  unfold b64char
  split_ifs <;> omega

theorem b64encode_no_newline :
    ∀ L : List Nat, ∀ c ∈ b64encode L, c ≠ 10 ∧ c ≠ 13
  | [] => by simp [b64encode]
  | [b0] => by
    simp only [b64encode, List.mem_cons, List.not_mem_nil, or_false]
    rintro c (rfl | rfl | rfl | rfl) <;>
      first
      | exact ⟨(b64char_props _).2.1, (b64char_props _).2.2⟩
      | omega
  | [b0, b1] => by
    simp only [b64encode, List.mem_cons, List.not_mem_nil, or_false]
    rintro c (rfl | rfl | rfl | rfl) <;>
      first
      | exact ⟨(b64char_props _).2.1, (b64char_props _).2.2⟩
      | omega
  | b0 :: b1 :: b2 :: rest => by
    simp only [b64encode, List.mem_cons]
    rintro c (rfl | rfl | rfl | rfl | hc)
    · exact ⟨(b64char_props _).2.1, (b64char_props _).2.2⟩
    · exact ⟨(b64char_props _).2.1, (b64char_props _).2.2⟩
    · exact ⟨(b64char_props _).2.1, (b64char_props _).2.2⟩
    · exact ⟨(b64char_props _).2.1, (b64char_props _).2.2⟩
    · exact b64encode_no_newline rest c hc

end SecureToken

namespace SecureToken

theorem b64decodeQuanta_b64encode :
    ∀ L : List Nat, (∀ b ∈ L, b < 256) → b64decodeQuanta (b64encode L) = some L
  | [], _ => rfl
  | [b0], h => by
    have hb0 : b0 < 256 := h b0 (by simp)
    have h0 := b64index_b64char (b0 % 256 / 4) (by omega)
    have h1 := b64index_b64char (b0 % 256 % 4 * 16) (by omega)
    simp only [b64encode, b64decodeQuanta, h0, h1, if_pos rfl]
    simp only [and_self, if_true, Option.some.injEq, List.cons.injEq, and_true]
    omega
  | [b0, b1], h => by
    have hb0 : b0 < 256 := h b0 (by simp)
    have hb1 : b1 < 256 := h b1 (by simp)
    have h0 := b64index_b64char (b0 % 256 / 4) (by omega)
    have h1 := b64index_b64char (b0 % 256 % 4 * 16 + b1 % 256 / 16) (by omega)
    have h2 := b64index_b64char (b1 % 256 % 16 * 4) (by omega)
    simp only [b64encode, b64decodeQuanta, h0, h1, h2,
      if_neg (b64char_props (b1 % 256 % 16 * 4)).1, if_pos rfl]
    simp only [if_true, Option.some.injEq, List.cons.injEq, and_true]
    omega
  | b0 :: b1 :: b2 :: rest, h => by
    have hb0 : b0 < 256 := h b0 (by simp)
    have hb1 : b1 < 256 := h b1 (by simp)
    have hb2 : b2 < 256 := h b2 (by simp)
    have h0 := b64index_b64char (b0 % 256 / 4) (by omega)
    have h1 := b64index_b64char (b0 % 256 % 4 * 16 + b1 % 256 / 16) (by omega)
    have h2 := b64index_b64char (b1 % 256 % 16 * 4 + b2 % 256 / 64) (by omega)
    have h3 := b64index_b64char (b2 % 256 % 64) (by omega)
    have ih := b64decodeQuanta_b64encode rest
      (fun b hb => h b (by simp [hb]))
    simp only [b64encode, b64decodeQuanta, h0, h1, h2, h3, ih,
      if_neg (b64char_props (b1 % 256 % 16 * 4 + b2 % 256 / 64)).1,
      if_neg (b64char_props (b2 % 256 % 64)).1]
    simp only [Option.some.injEq, List.cons.injEq, and_true]
    omega

theorem b64decode_b64encode (L : List Nat) (h : ∀ b ∈ L, b < 256) :
    b64decode (b64encode L) = some L := by
  unfold b64decode
  rw [List.filter_eq_self.mpr, b64decodeQuanta_b64encode L h]
  intro c hc
  have := b64encode_no_newline L c hc
  simp [this.1, this.2]

theorem b64encode_length :
    ∀ L : List Nat, (b64encode L).length = b64EncodedLen L.length
  | [] => by simp [b64encode, b64EncodedLen]
  | [_] => by simp [b64encode, b64EncodedLen]
  | [_, _] => by simp [b64encode, b64EncodedLen]
  | b0 :: b1 :: b2 :: rest => by
    have ih := b64encode_length rest
    simp only [b64encode, List.length_cons, b64EncodedLen] at ih ⊢
    omega

end SecureToken

namespace SecureToken

/-! ### Lemmas about timestamps and nonces -/

theorem uint64LE_lt (n : Nat) : ∀ b ∈ uint64LE n, b < 256 := by
  simp only [uint64LE, List.mem_cons, List.not_mem_nil, or_false]
  rintro b (rfl | rfl | rfl | rfl | rfl | rfl | rfl | rfl) <;> omega

theorem uint64LE_length (n : Nat) : (uint64LE n).length = 8 := by
  simp [uint64LE]

theorem le64ToNat_uint64LE (n : Nat) (rest : List Nat) :
    le64ToNat (uint64LE n ++ rest) = n % 18446744073709551616 := by
  simp only [uint64LE, List.cons_append, List.nil_append, le64ToNat]
  omega

theorem getTimestamp_putTimestamp (now : Int) (rest : List Nat)
    (h1 : -9223372036854775808 ≤ now) (h2 : now < 9223372036854775808) :
    getTimestamp (putTimestamp now ++ rest) = now := by
  unfold getTimestamp putTimestamp toInt64
  rw [le64ToNat_uint64LE]
  split_ifs <;> omega

theorem mkNonce_length (now : Int) (r : List Nat) :
    (mkNonce now r).length = 8 + r.length := by
  simp [mkNonce, putTimestamp, uint64LE]
  omega

theorem mkNonce_lt (now : Int) (r : List Nat) (hr : ∀ b ∈ r, b < 256) :
    ∀ b ∈ mkNonce now r, b < 256 := by
  intro b hb
  rcases List.mem_append.mp hb with h | h
  · exact uint64LE_lt _ b h
  · exact hr b h

theorem getTimestamp_mkNonce (now : Int) (r : List Nat)
    (h1 : -9223372036854775808 ≤ now) (h2 : now < 9223372036854775808) :
    getTimestamp (mkNonce now r) = now :=
  getTimestamp_putTimestamp now r h1 h2

end SecureToken

namespace SecureToken

/-- What `Unseal` does, at any clock reading `now'`, to the exact buffer
`Seal` produced at clock reading `now` with random suffix `r`: the decode,
length and version checks all pass, the embedded timestamp reads back as
`now`, and the result is decided by the ttl comparison first and the AEAD
opening second. -/
theorem unseal_of_sealed (a : AEAD) (ttl now now' : Int) (p r : List Nat)
    (hn : 8 ≤ a.nonceSize)
    (hr : r.length = a.nonceSize - 8)
    (hrb : ∀ b ∈ r, b < 256)
    (hct : ∀ b ∈ a.aeadSeal (mkNonce now r) p, b < 256)
    (hlen : a.overhead ≤ (a.aeadSeal (mkNonce now r) p).length)
    (hnow1 : -9223372036854775808 ≤ now) (hnow2 : now < 9223372036854775808) :
    Tokener.Unseal ⟨a, ttl⟩ now'
      (b64encode (sealVersion :: (mkNonce now r ++ a.aeadSeal (mkNonce now r) p))) =
      if now' - ttl > now then .error .tokenExpired
      else
        match a.aeadOpen (mkNonce now r) (a.aeadSeal (mkNonce now r) p) with
        | none => .error .authError
        | some q => .ok q := by
  have hD : ∀ b ∈ sealVersion :: (mkNonce now r ++ a.aeadSeal (mkNonce now r) p), b < 256 := by
    intro b hb
    rcases List.mem_cons.mp hb with rfl | hb
    · simp [sealVersion]
    · rcases List.mem_append.mp hb with h | h
      · exact mkNonce_lt now r hrb b h
      · exact hct b h
  have hdec := b64decode_b64encode _ hD
  have hmk : (mkNonce now r).length = a.nonceSize := by
    rw [mkNonce_length, hr]; omega
  have hlenD : ¬ ((sealVersion :: (mkNonce now r ++ a.aeadSeal (mkNonce now r) p)).length <
      Tokener.sealedLength ⟨a, ttl⟩ [] false) := by
    simp only [Tokener.sealedLength, List.length_cons, List.length_append, hmk,
      List.length_nil, if_neg Bool.false_ne_true]
    omega
  simp only [Tokener.Unseal, hdec, hlenD, if_false]
  simp only [sealVersion, ne_eq, not_true_eq_false, if_false,
    List.take_left' hmk, List.drop_left' hmk,
    getTimestamp_mkNonce now r hnow1 hnow2, Tokener.checkTTL]
  split_ifs with h
  · rfl
  · rfl

end SecureToken

namespace SecureToken

/-- C2: for every plaintext byte string P (empty, whitespace, non-ASCII bytes
included) and every fixed AEAD key and ttl, unsealing `Seal(P)` at a clock
reading within the ttl window of the sealing time returns P without error.
The AEAD collaborator is quantified by its `cipher.AEAD` contract at the
sealed values: the sealed output has `len(P) + Overhead` bytes and opens back
to P under the same nonce. -/
theorem C2_seal_unseal_roundtrip (a : AEAD) (ttl now nowU : Int) (p r tok : List Nat)
    (hn : 8 ≤ a.nonceSize)
    (hr : r.length = a.nonceSize - 8)
    (hrb : ∀ b ∈ r, b < 256)
    (hct : ∀ b ∈ a.aeadSeal (mkNonce now r) p, b < 256)
    (hlen : a.overhead ≤ (a.aeadSeal (mkNonce now r) p).length)
    (hrt : a.aeadOpen (mkNonce now r) (a.aeadSeal (mkNonce now r) p) = some p)
    (hnow1 : -9223372036854775808 ≤ now) (hnow2 : now < 9223372036854775808)
    (hfresh : nowU - ttl ≤ now)
    (hseal : Tokener.Seal ⟨a, ttl⟩ now (some r) p = .ok tok) :
    Tokener.Unseal ⟨a, ttl⟩ nowU tok = .ok p := by
  have htok : tok =
      b64encode (sealVersion :: (mkNonce now r ++ a.aeadSeal (mkNonce now r) p)) := by
    simpa [Tokener.Seal, eq_comm] using hseal
  subst htok
  rw [unseal_of_sealed a ttl now nowU p r hn hr hrb hct hlen hnow1 hnow2,
    if_neg (by omega), hrt]

theorem C2_seal_unseal_roundtrip_witness :
    toyAEAD.aeadOpen (mkNonce 1000000000 [7, 8, 9, 10])
        (toyAEAD.aeadSeal (mkNonce 1000000000 [7, 8, 9, 10]) [104, 200]) =
      some [104, 200] ∧
    Tokener.Unseal ⟨toyAEAD, 60000000000⟩ 60999999999
      (b64encode (sealVersion :: (mkNonce 1000000000 [7, 8, 9, 10] ++
        toyAEAD.aeadSeal (mkNonce 1000000000 [7, 8, 9, 10]) [104, 200]))) =
      .ok [104, 200] :=
  ⟨by decide,
   C2_seal_unseal_roundtrip toyAEAD 60000000000 1000000000 60999999999 [104, 200]
     [7, 8, 9, 10] _ (by decide) (by decide) (by decide) (by decide) (by decide)
     (by decide) (by decide) (by decide) (by decide) rfl⟩

end SecureToken

namespace SecureToken

/-- C5: with the clock frozen at T, a token sealed at T unseals successfully
with the clock set to exactly `T + ttl`, and fails with `TokenExpired` with
the clock set to `T + ttl + 1` nanosecond. -/
theorem C5_expiry_boundary (a : AEAD) (ttl T : Int) (p r tok : List Nat)
    (hn : 8 ≤ a.nonceSize)
    (hr : r.length = a.nonceSize - 8)
    (hrb : ∀ b ∈ r, b < 256)
    (hct : ∀ b ∈ a.aeadSeal (mkNonce T r) p, b < 256)
    (hlen : a.overhead ≤ (a.aeadSeal (mkNonce T r) p).length)
    (hrt : a.aeadOpen (mkNonce T r) (a.aeadSeal (mkNonce T r) p) = some p)
    (hT1 : -9223372036854775808 ≤ T) (hT2 : T < 9223372036854775808)
    (hseal : Tokener.Seal ⟨a, ttl⟩ T (some r) p = .ok tok) :
    Tokener.Unseal ⟨a, ttl⟩ (T + ttl) tok = .ok p ∧
    Tokener.Unseal ⟨a, ttl⟩ (T + ttl + 1) tok = .error .tokenExpired := by
  have htok : tok =
      b64encode (sealVersion :: (mkNonce T r ++ a.aeadSeal (mkNonce T r) p)) := by
    simpa [Tokener.Seal, eq_comm] using hseal
  subst htok
  constructor
  · rw [unseal_of_sealed a ttl T (T + ttl) p r hn hr hrb hct hlen hT1 hT2,
      if_neg (by omega), hrt]
  · rw [unseal_of_sealed a ttl T (T + ttl + 1) p r hn hr hrb hct hlen hT1 hT2,
      if_pos (by omega)]

theorem C5_expiry_boundary_witness :
    Tokener.Unseal ⟨toyAEAD, 60000000000⟩ (1000000000 + 60000000000)
      (b64encode (sealVersion :: (mkNonce 1000000000 [3, 1, 4, 1] ++
        toyAEAD.aeadSeal (mkNonce 1000000000 [3, 1, 4, 1]) [100]))) = .ok [100] ∧
    Tokener.Unseal ⟨toyAEAD, 60000000000⟩ (1000000000 + 60000000000 + 1)
      (b64encode (sealVersion :: (mkNonce 1000000000 [3, 1, 4, 1] ++
        toyAEAD.aeadSeal (mkNonce 1000000000 [3, 1, 4, 1]) [100]))) =
      .error .tokenExpired :=
  C5_expiry_boundary toyAEAD 60000000000 1000000000 [100] [3, 1, 4, 1] _
    (by decide) (by decide) (by decide) (by decide) (by decide) (by decide)
    (by decide) (by decide) rfl

/-- C9: with `ttl = 0`, a token sealed at clock reading T unseals successfully
while the clock still reads exactly T, and fails with `TokenExpired` at every
clock reading strictly after T. -/
theorem C9_zero_ttl (a : AEAD) (T : Int) (p r tok : List Nat)
    (hn : 8 ≤ a.nonceSize)
    (hr : r.length = a.nonceSize - 8)
    (hrb : ∀ b ∈ r, b < 256)
    (hct : ∀ b ∈ a.aeadSeal (mkNonce T r) p, b < 256)
    (hlen : a.overhead ≤ (a.aeadSeal (mkNonce T r) p).length)
    (hrt : a.aeadOpen (mkNonce T r) (a.aeadSeal (mkNonce T r) p) = some p)
    (hT1 : -9223372036854775808 ≤ T) (hT2 : T < 9223372036854775808)
    (hseal : Tokener.Seal ⟨a, 0⟩ T (some r) p = .ok tok) :
    Tokener.Unseal ⟨a, 0⟩ T tok = .ok p ∧
    ∀ nowU : Int, T < nowU → Tokener.Unseal ⟨a, 0⟩ nowU tok = .error .tokenExpired := by
  have htok : tok =
      b64encode (sealVersion :: (mkNonce T r ++ a.aeadSeal (mkNonce T r) p)) := by
    simpa [Tokener.Seal, eq_comm] using hseal
  subst htok
  constructor
  · rw [unseal_of_sealed a 0 T T p r hn hr hrb hct hlen hT1 hT2,
      if_neg (by omega), hrt]
  · intro nowU hnow
    rw [unseal_of_sealed a 0 T nowU p r hn hr hrb hct hlen hT1 hT2,
      if_pos (by omega)]

theorem C9_zero_ttl_witness :
    Tokener.Unseal ⟨toyAEAD, 0⟩ 5000
      (b64encode (sealVersion :: (mkNonce 5000 [9, 9, 2, 2] ++
        toyAEAD.aeadSeal (mkNonce 5000 [9, 9, 2, 2]) [42, 43]))) = .ok [42, 43] ∧
    Tokener.Unseal ⟨toyAEAD, 0⟩ 5001
      (b64encode (sealVersion :: (mkNonce 5000 [9, 9, 2, 2] ++
        toyAEAD.aeadSeal (mkNonce 5000 [9, 9, 2, 2]) [42, 43]))) =
      .error .tokenExpired := by
  have h := C9_zero_ttl toyAEAD 5000 [42, 43] [9, 9, 2, 2] _
    (by decide) (by decide) (by decide) (by decide) (by decide) (by decide)
    (by decide) (by decide) rfl
  exact ⟨h.1, h.2 5001 (by decide)⟩

end SecureToken

namespace SecureToken

/-- C4: the base64url-decoded output of `Seal` is: byte 0 the version byte 1,
then the nonce whose first 8 bytes are the clock reading as a little-endian
unsigned 64-bit count of nanoseconds since the epoch (Go's `uint64(UnixNano)`)
and whose remaining bytes are the random source's output, then the AEAD
ciphertext-and-tag output. -/
theorem C4_sealed_layout (a : AEAD) (ttl now : Int) (p r tok : List Nat)
    (hrb : ∀ b ∈ r, b < 256)
    (hct : ∀ b ∈ a.aeadSeal (mkNonce now r) p, b < 256)
    (hseal : Tokener.Seal ⟨a, ttl⟩ now (some r) p = .ok tok) :
    b64decode tok =
      some (1 :: (uint64LE (now % 18446744073709551616).toNat ++
        (r ++ a.aeadSeal (mkNonce now r) p))) := by
  have htok : tok =
      b64encode (sealVersion :: (mkNonce now r ++ a.aeadSeal (mkNonce now r) p)) := by
    simpa [Tokener.Seal, eq_comm] using hseal
  subst htok
  rw [b64decode_b64encode]
  · simp [sealVersion, mkNonce, putTimestamp, List.append_assoc]
  · intro b hb
    rcases List.mem_cons.mp hb with rfl | hb
    · simp [sealVersion]
    · rcases List.mem_append.mp hb with h | h
      · exact mkNonce_lt now r hrb b h
      · exact hct b h

theorem C4_sealed_layout_witness :
    b64decode (b64encode (sealVersion :: (mkNonce 1000000000 [7, 8, 9, 10] ++
        toyAEAD.aeadSeal (mkNonce 1000000000 [7, 8, 9, 10]) [1, 2, 3]))) =
      some (1 :: (uint64LE ((1000000000 : Int) % 18446744073709551616).toNat ++
        ([7, 8, 9, 10] ++ toyAEAD.aeadSeal (mkNonce 1000000000 [7, 8, 9, 10]) [1, 2, 3]))) :=
  C4_sealed_layout toyAEAD 60000000000 1000000000 [1, 2, 3] [7, 8, 9, 10] _
    (by decide) (by decide) rfl

/-- C7: the length of `Seal(P)` is the base64 `EncodedLen` expansion of
`1 + nonce_size + len(P) + tag_size` — a function of `len(P)` only, with no
dependence on P's bytes, the timestamp or the random nonce suffix. -/
theorem C7_sealed_length (a : AEAD) (ttl now : Int) (p r tok : List Nat)
    (hn : 8 ≤ a.nonceSize)
    (hr : r.length = a.nonceSize - 8)
    (hlen : (a.aeadSeal (mkNonce now r) p).length = p.length + a.overhead)
    (hseal : Tokener.Seal ⟨a, ttl⟩ now (some r) p = .ok tok) :
    tok.length = b64EncodedLen (1 + a.nonceSize + p.length + a.overhead) := by
  have htok : tok =
      b64encode (sealVersion :: (mkNonce now r ++ a.aeadSeal (mkNonce now r) p)) := by
    simpa [Tokener.Seal, eq_comm] using hseal
  subst htok
  rw [b64encode_length]
  congr 1
  simp only [List.length_cons, List.length_append, mkNonce_length, hr, hlen]
  omega

theorem C7_sealed_length_witness :
    (b64encode (sealVersion :: (mkNonce 123456789 [0, 0, 0, 0] ++
        toyAEAD.aeadSeal (mkNonce 123456789 [0, 0, 0, 0]) [65, 66, 67, 68, 69]))).length =
      b64EncodedLen (1 + toyAEAD.nonceSize + 5 + toyAEAD.overhead) :=
  C7_sealed_length toyAEAD 60000000000 123456789 [65, 66, 67, 68, 69] [0, 0, 0, 0] _
    (by decide) (by decide) (by decide) rfl

/-- C8: `Seal` fails exactly when the random source fails: a random-source
failure is propagated to the caller and no token is produced, and whenever the
random source delivers bytes, `Seal` returns a token without error. -/
theorem C8_seal_fails_iff_random_fails (t : Tokener) (now : Int)
    (rand : Option (List Nat)) (p : List Nat) :
    (rand = none → t.Seal now rand p = .error .randomError) ∧
    (∀ r, rand = some r → ∃ tok, t.Seal now rand p = .ok tok) := by
  constructor
  · rintro rfl
    rfl
  · rintro r rfl
    exact ⟨_, rfl⟩

theorem C8_seal_fails_iff_random_fails_witness :
    toyTokener.Seal 1000000000 none [1, 2] = .error .randomError ∧
    ∃ tok, toyTokener.Seal 1000000000 (some [5, 6, 7, 8]) [1, 2] = .ok tok :=
  ⟨(C8_seal_fails_iff_random_fails toyTokener 1000000000 none [1, 2]).1 rfl,
   (C8_seal_fails_iff_random_fails toyTokener 1000000000 (some [5, 6, 7, 8]) [1, 2]).2
     [5, 6, 7, 8] rfl⟩

end SecureToken

namespace SecureToken

/-- C6: any input that base64-decodes with a first decoded byte other than the
supported version value 1 makes `Unseal` fail with `errTokenInvalid`,
regardless of what the remaining bytes contain. -/
theorem C6_version_gate (t : Tokener) (now : Int) (s d : List Nat) (v : Nat)
    (hd : b64decode s = some d) (hv : d.head? = some v) (hne : v ≠ 1) :
    t.Unseal now s = .error .tokenInvalid := by
  cases d with
  | nil => simp at hv
  | cons ver nc =>
    simp only [List.head?_cons, Option.some.injEq] at hv
    have hne' : ver ≠ 1 := by rw [hv]; exact hne
    simp only [Tokener.Unseal, hd]
    by_cases hlen : (ver :: nc).length < t.sealedLength [] false
    · rw [if_pos hlen]
    · rw [if_neg hlen, if_pos hne']

theorem C6_version_gate_witness :
    b64decode (b64encode (2 :: List.replicate 28 0)) = some (2 :: List.replicate 28 0) ∧
    (2 : Nat) ≠ 1 ∧
    toyTokener.Unseal 0 (b64encode (2 :: List.replicate 28 0)) = .error .tokenInvalid :=
  ⟨by decide, by decide,
   C6_version_gate toyTokener 0 (b64encode (2 :: List.replicate 28 0))
     (2 :: List.replicate 28 0) 2 (by decide) (by decide) (by decide)⟩

/-- C10: `Unseal` puts no upper bound on the embedded timestamp: a well-formed
token (version byte 1, full-length nonce and ciphertext, bytes in range) that
authenticates correctly under the AEAD and whose embedded timestamp is
strictly greater than the current clock reading passes the ttl check and
unseals to its plaintext, for every nonnegative ttl. -/
theorem C10_future_timestamp_accepted (a : AEAD) (ttl now : Int) (nonce ct p : List Nat)
    (httl : 0 ≤ ttl)
    (hnl : nonce.length = a.nonceSize)
    (hnb : ∀ b ∈ nonce, b < 256)
    (hcb : ∀ b ∈ ct, b < 256)
    (hov : a.overhead ≤ ct.length)
    (hopen : a.aeadOpen nonce ct = some p)
    (hfut : now < getTimestamp nonce) :
    Tokener.Unseal ⟨a, ttl⟩ now (b64encode (1 :: (nonce ++ ct))) = .ok p := by
  have hD : ∀ b ∈ 1 :: (nonce ++ ct), b < 256 := by
    intro b hb
    rcases List.mem_cons.mp hb with rfl | hb
    · omega
    · rcases List.mem_append.mp hb with h | h
      · exact hnb b h
      · exact hcb b h
  have hlenD : ¬ ((1 :: (nonce ++ ct)).length < Tokener.sealedLength ⟨a, ttl⟩ [] false) := by
    simp only [Tokener.sealedLength, List.length_cons, List.length_append, hnl,
      List.length_nil, if_neg Bool.false_ne_true]
    omega
  simp only [Tokener.Unseal, b64decode_b64encode _ hD, hlenD, if_false]
  simp only [ne_eq, not_true_eq_false, if_false, List.take_left' hnl,
    List.drop_left' hnl, Tokener.checkTTL]
  rw [if_neg (by omega)]
  simp [hopen]

theorem C10_future_timestamp_accepted_witness :
    toyAEAD.aeadOpen (mkNonce 100 [0, 0, 0, 0])
        ([7] ++ toyTag (mkNonce 100 [0, 0, 0, 0]) [7]) = some [7] ∧
    (5 : Int) < getTimestamp (mkNonce 100 [0, 0, 0, 0]) ∧
    Tokener.Unseal ⟨toyAEAD, 3⟩ 5
      (b64encode (1 :: (mkNonce 100 [0, 0, 0, 0] ++
        ([7] ++ toyTag (mkNonce 100 [0, 0, 0, 0]) [7])))) = .ok [7] :=
  ⟨by decide, by decide,
   C10_future_timestamp_accepted toyAEAD 3 5 (mkNonce 100 [0, 0, 0, 0])
     ([7] ++ toyTag (mkNonce 100 [0, 0, 0, 0]) [7]) [7]
     (by decide) (by decide) (by decide) (by decide) (by decide) (by decide) (by decide)⟩

end SecureToken

namespace SecureToken

/-- C1 counterexample: a concrete decoded buffer (version 1, all-zero nonce so
its timestamp is 0, all-zero ciphertext whose tag does not authenticate) at
clock reading 1 with ttl 0: the AEAD open fails on it, yet `Unseal` reports
`TokenExpired`, because the ttl check runs before the AEAD open. -/
theorem C1_counterexample :
    toyAEAD.aeadOpen (List.replicate 12 0) (List.replicate 16 0) = none ∧
    Tokener.Unseal ⟨toyAEAD, 0⟩ 1
      (b64encode (1 :: (List.replicate 12 0 ++ List.replicate 16 0))) =
      .error .tokenExpired := by
  exact ⟨by decide, by rfl⟩

/-- C1 amended: the freshness (ttl) check is performed strictly BEFORE AEAD
authentication. For a decodable input of sufficient length with version byte
1 whose AEAD authentication fails: if the embedded timestamp is expired,
`Unseal` reports `TokenExpired` (the expiry-vs-invalid distinction is decided
without authenticating); only if it is not expired does the failure surface,
and then as the AEAD's own authentication error, not `errTokenInvalid`. -/
theorem C1_ttl_checked_before_auth (t : Tokener) (now : Int) (s : List Nat)
    (ver : Nat) (nc : List Nat)
    (hd : b64decode s = some (ver :: nc))
    (hlen : t.sealedLength [] false ≤ (ver :: nc).length)
    (hver : ver = 1)
    (hauth : t.aead.aeadOpen (nc.take t.aead.nonceSize) (nc.drop t.aead.nonceSize) = none) :
    t.Unseal now s =
      if now - t.ttl > getTimestamp (nc.take t.aead.nonceSize) then
        .error .tokenExpired
      else
        .error .authError := by
  subst hver
  simp only [Tokener.Unseal, hd]
  rw [if_neg (by omega)]
  simp only [ne_eq, not_true_eq_false, if_false, Tokener.checkTTL]
  split_ifs with h
  · rfl
  · simp [hauth]

theorem C1_ttl_checked_before_auth_witness :
    toyAEAD.aeadOpen (mkNonce 0 [1, 1, 1, 1]) (List.replicate 16 0) = none ∧
    Tokener.Unseal ⟨toyAEAD, 0⟩ 2
      (b64encode (1 :: (mkNonce 0 [1, 1, 1, 1] ++ List.replicate 16 0))) =
      .error .tokenExpired := by
  refine ⟨by decide, ?_⟩
  have h := C1_ttl_checked_before_auth ⟨toyAEAD, 0⟩ 2
    (b64encode (1 :: (mkNonce 0 [1, 1, 1, 1] ++ List.replicate 16 0)))
    1 (mkNonce 0 [1, 1, 1, 1] ++ List.replicate 16 0)
    (by decide) (by decide) rfl (by decide)
  rw [h, if_pos (by decide)]

/-- C3 counterexample: the single byte `"a"` is not valid base64url (a lone
trailing symbol); `Unseal` on it fails with the propagated base64
`CorruptInputError`, which is a different error value from
`errTokenInvalid`. -/
theorem C3_counterexample :
    b64decode [97] = none ∧
    toyTokener.Unseal 0 [97] = .error .base64Error ∧
    TokenError.base64Error ≠ TokenError.tokenInvalid := by
  exact ⟨by decide, by rfl, by decide⟩

/-- C3 amended: for every input that is not valid base64url, `Unseal` fails,
but with the base64 decoder's own error propagated to the caller, not with
`errTokenInvalid`. -/
theorem C3_decode_error_propagated (t : Tokener) (now : Int) (s : List Nat)
    (hd : b64decode s = none) :
    t.Unseal now s = .error .base64Error := by
  simp only [Tokener.Unseal, hd]

theorem C3_decode_error_propagated_witness :
    b64decode [32] = none ∧
    toyTokener.Unseal 0 [32] = .error .base64Error :=
  ⟨by decide, C3_decode_error_propagated toyTokener 0 [32] (by decide)⟩

end SecureToken
